import Mathlib

/-!
Verification of the media organizer (`organize.py`).

The development shallowly embeds the script's pure logic over `List Char`
paths.  Filesystem state (directory listings, archive tables of contents,
failures of `makedirs` / `copy` / `link` / `move`) is supplied through
explicit environments.  Python exceptions are modelled with `Except PyErr`.
-/

namespace MediaOrganizer

/-! ## Python errors -/

/-- Python exceptions that the script can raise. -/
inductive PyErr where
  | valueError (msg : List Char) : PyErr
  | assertionError : PyErr
  | typeError : PyErr
  | indexError : PyErr
  | osError (code : Nat) : PyErr
deriving DecidableEq

/-! ## `os.path` primitives (POSIX semantics, as used by the script) -/

/-- `os.path.basename p`: the part of `p` after the last slash. -/
def basenameL (l : List Char) : List Char :=
  (l.reverse.takeWhile (fun c => c ≠ '/')).reverse

/-- Strip trailing slashes (`str.rstrip('/')`). -/
def dropTrailingSlashes (l : List Char) : List Char :=
  (l.reverse.dropWhile (fun c => c = '/')).reverse

/-- Head part of `os.path.split`: everything up to and including the last
slash, then trailing slashes stripped unless the head is all slashes. -/
def splitHead (l : List Char) : List Char :=
  let h := (l.reverse.dropWhile (fun c => c ≠ '/')).reverse
  if h = [] then []
  else if h.all (fun c => c = '/') then h
  else dropTrailingSlashes h

/-- `os.path.split p` for POSIX paths. -/
def psplit (l : List Char) : List Char × List Char :=
  (splitHead l, basenameL l)

/-- `os.path.join a b` for POSIX paths (two-argument form). -/
def pjoin (a b : List Char) : List Char :=
  match b with
  | '/' :: _ => b
  | _ =>
    match a.reverse with
    | [] => b
    | '/' :: _ => a ++ b
    | _ => a ++ '/' :: b

/-- `os.path.splitext p`: split off the extension at the last dot of the
base name, provided that dot is preceded (within the base name) by some
non-dot character. -/
def splitextL (l : List Char) : List Char × List Char :=
  let r := l.reverse
  let e := r.takeWhile (fun c => c ≠ '.' ∧ c ≠ '/')
  match r.drop e.length with
  | '.' :: before =>
    if (before.takeWhile (fun c => c ≠ '/')).any (fun c => c ≠ '.') then
      (before.reverse, '.' :: e.reverse)
    else
      (l, [])
  | _ => (l, [])

/-! ## Decimal digits -/

/-- Value of a decimal digit string, as Python `int(...)` on the captured
group of a `\d+` match. -/
def digitsToNat (l : List Char) : Nat :=
  l.foldl (fun a c => a * 10 + (c.toNat - 48)) 0

/-- The decimal digit character for `n < 10`. -/
def digitChar (n : Nat) : Char :=
  Char.ofNat (48 + n)

/-- Decimal digits of `n` (fuelled helper). -/
def natDigitsAux : Nat → Nat → List Char
  | 0, _ => []
  | fuel + 1, n =>
    if n < 10 then [digitChar n]
    else natDigitsAux fuel (n / 10) ++ [digitChar (n % 10)]

/-- Decimal digits of `n`, as Python `str(n)` / `f'{n}'`. -/
def natDigits (n : Nat) : List Char :=
  natDigitsAux (n + 1) n

/-- Python's `f'{n:02}'`: decimal digits zero-padded on the left to width 2
(wider numbers are printed in full). -/
def pad2 (n : Nat) : List Char :=
  if n < 10 then '0' :: natDigits n else natDigits n

/-! ## Regular-expression matchers

Each pattern of the script is translated to a deterministic scanner with
`re.search` semantics (leftmost match; in these patterns every `\d+` is
followed by a non-digit requirement, so greedy maximal munch is exact). -/

/-- Greedy `\d+`-style split: maximal digit prefix and the rest. -/
def takeDigits : List Char → List Char × List Char
  | [] => ([], [])
  | c :: rest =>
    if c.isDigit then
      match takeDigits rest with
      | (ds, r) => (c :: ds, r)
    else ([], c :: rest)

/-- Match `\d+` at the current position, returning the captured value. -/
def digitsAt (l : List Char) : Option Nat :=
  match takeDigits l with
  | ([], _) => none
  | (ds, _) => some (digitsToNat ds)

/-- Match `[sS](\d+)[eE](\d+)` at the current position. -/
def matchSEAt : List Char → Option (Nat × Nat)
  | [] => none
  | c :: rest =>
    if c = 's' ∨ c = 'S' then
      match takeDigits rest with
      | ([], _) => none
      | (ds, rest2) =>
        match rest2 with
        | [] => none
        | e :: rest3 =>
          if e = 'e' ∨ e = 'E' then
            match takeDigits rest3 with
            | ([], _) => none
            | (ds2, _) => some (digitsToNat ds, digitsToNat ds2)
          else none
    else none

/-- `re.search(r'[sS](\d+)[eE](\d+)', l)`: leftmost match. -/
def searchSE : List Char → Option (Nat × Nat)
  | [] => none
  | c :: rest =>
    match matchSEAt (c :: rest) with
    | some r => some r
    | none => searchSE rest

/-- Match `(\d+)[xX](\d+)` at the current position. -/
def matchXAt : List Char → Option (Nat × Nat)
  | [] => none
  | c :: rest =>
    if c.isDigit then
      match takeDigits (c :: rest) with
      | (_, []) => none
      | (ds, x :: r2) =>
        if x = 'x' ∨ x = 'X' then
          match takeDigits r2 with
          | ([], _) => none
          | (ds2, _) => some (digitsToNat ds, digitsToNat ds2)
        else none
    else none

/-- `re.search(r'(\d+)[xX](\d+)', l)`: leftmost match. -/
def searchX : List Char → Option (Nat × Nat)
  | [] => none
  | c :: rest =>
    match matchXAt (c :: rest) with
    | some r => some r
    | none => searchX rest

/-- Strip a literal prefix, returning the remainder on success. -/
def stripPre : List Char → List Char → Option (List Char)
  | [], l => some l
  | _ :: _, [] => none
  | p :: ps, c :: cs => if c = p then stripPre ps cs else none

/-- Match `[sS](?:eason ?)?(\d+)` at the current position.  The optional
group is tried greedily (`"eason "`, then `"eason"`, then nothing); when a
longer alternative consumes but no digits follow, the shorter alternatives
provably fail as well (the next character is then `' '` or `'e'`), so no
further backtracking is needed. -/
def matchSeasonAt : List Char → Option Nat
  | [] => none
  | c :: rest =>
    if c = 's' ∨ c = 'S' then
      match stripPre ('e' :: 'a' :: 's' :: 'o' :: 'n' :: ' ' :: []) rest with
      | some r2 =>
        match digitsAt r2 with
        | some n => some n
        | none => none
      | none =>
        match stripPre ('e' :: 'a' :: 's' :: 'o' :: 'n' :: []) rest with
        | some r2 => digitsAt r2
        | none => digitsAt rest
    else none

/-- `re.search(r'[sS](?:eason ?)?(\d+)', l)`: leftmost match. -/
def searchSeason : List Char → Option Nat
  | [] => none
  | c :: rest =>
    match matchSeasonAt (c :: rest) with
    | some r => some r
    | none => searchSeason rest

/-- `re.search(r'(\d+)$', l)`: the maximal trailing digit run, if any. -/
def trailingNumber (l : List Char) : Option Nat :=
  let r := l.reverse.takeWhile (fun c => c.isDigit)
  if r = [] then none else some (digitsToNat r.reverse)

/-! ## Module constants -/

/-- `MEDIA_EXTS`. -/
def mediaExts : List (List Char) := [".avi".data, ".mkv".data]

/-- The archive extension `'.rar'`. -/
def rarExt : List Char := ".rar".data

/-! ## Episode/season resolver -/

/-- Message of the `ValueError` raised by `get_episode_info`
(`f'could not parse episode: {p}'`). -/
def epMsg (p : List Char) : List Char :=
  "could not parse episode: ".data ++ p

/-- Message of the `ValueError` raised by `get_season_number`; the source
lacks the `f` prefix, so the braces are literal. -/
def seasonMsg : List Char :=
  "not a season: \x7bp\x7d".data

/-- The `for fmt in EPISODE_FMTS` loop: first match of the ordered episode
patterns against a base name. -/
def searchEpisode (nm : List Char) : Option (Nat × Nat) :=
  match searchSE nm with
  | some r => some r
  | none => searchX nm

/-- `get_episode_info`: season/episode numbers from a media item path.
Raises `ValueError` when no pattern matches the base name or when the
matched episode number is falsy (zero). -/
def get_episode_info (p : List Char) : Except PyErr (Nat × Nat) :=
  match searchEpisode (psplit p).2 with
  | some (s, e) => if e = 0 then .error (.valueError (epMsg p)) else .ok (s, e)
  | none => .error (.valueError (epMsg p))

/-- `get_season_number`: season number from a path's base name, via the
season patterns; `ValueError` when none matches. -/
def get_season_number (p : List Char) : Except PyErr Nat :=
  match searchSeason (basenameL p) with
  | some n => .ok n
  | none => .error (.valueError seasonMsg)

/-- `get_season_target`: `os.path.join(t, f'season {s:02}')`. -/
def get_season_target (t : List Char) (s : Nat) : List Char :=
  pjoin t ("season ".data ++ pad2 s)

/-- The filename `f's{season:02}e{episode:02}{ext}'`. -/
def epFname (season episode : Nat) (ext : List Char) : List Char :=
  's' :: (pad2 season ++ 'e' :: (pad2 episode ++ ext))

/-- The `try/except` block of `get_target_path`: the directory the episode
file will be placed in.  A season-like target must agree with the parsed
season (`assert target_season == season`); otherwise a `season NN` segment
is appended. -/
def target_dir_for (target : List Char) (season : Nat) : Except PyErr (List Char) :=
  match get_season_number target with
  | .error _ => .ok (get_season_target target season)
  | .ok ts => if ts = season then .ok target else .error .assertionError

/-- `get_target_path`: derived destination path for a source item. -/
def get_target_path (source target : List Char) : Except PyErr (List Char) :=
  match get_episode_info source with
  | .error e => .error e
  | .ok (season, episode) =>
    match target_dir_for target season with
    | .error e => .error e
    | .ok t1 => .ok (pjoin t1 (epFname season episode (splitextL source).2))

/-! ## Archive inspector

`is_rar_first_volume` works purely on the directory listing of the
archive's directory; the listing is passed in explicitly (it is what
`os.listdir(d)` returns). -/

/-- The `parts` list: every listing entry whose stem has a trailing
number, paired with that number, in listing order. -/
def partsOf (listing : List (List Char)) (d : List Char) : List (Nat × List Char) :=
  listing.filterMap (fun i =>
    match trailingNumber (splitextL i).1 with
    | some p => some (p, pjoin d i)
    | none => none)

/-- `ext_counts['.rar']` after the loop: how many listing entries carry the
archive extension (`ext_counts.get('.rar')` is `None` exactly when this is
zero). -/
def rarCountOf (listing : List (List Char)) : Nat :=
  (listing.filter (fun i => (splitextL i).2 == rarExt)).length

/-- Stable insertion into a list sorted by the numeric key (equal keys keep
their existing order, matching Python's stable `list.sort(key=...)`). -/
def insertPart (x : Nat × List Char) : List (Nat × List Char) → List (Nat × List Char)
  | [] => [x]
  | y :: ys => if y.1 ≤ x.1 then y :: insertPart x ys else x :: y :: ys

/-- `parts.sort(key=lambda p: p[0])`: stable sort by the numeric key. -/
def sortParts (l : List (Nat × List Char)) : List (Nat × List Char) :=
  l.foldl (fun acc x => insertPart x acc) []

/-- `is_rar_first_volume`: `r` is the full archive path, `listing` is
`os.listdir` of its directory.  When no listing entry has the archive
extension, `ext_counts.get('.rar')` is `None` and `None > 1` raises
`TypeError`; when several have it but `parts` is empty, `parts[0]` raises
`IndexError`. -/
def is_rar_first_volume (listing : List (List Char)) (r : List Char) : Except PyErr Bool :=
  let d := (psplit r).1
  let parts := partsOf listing d
  let rarCount := rarCountOf listing
  if rarCount = 0 then .error .typeError
  else if 1 < rarCount then
    match sortParts parts with
    | [] => .error .indexError
    | p0 :: _ => .ok (p0.2 == r)
  else .ok true

/-- `is_rar_media_file`: whether any entry of the archive's table of
contents (`infolist`) has a media extension (OR-fold, as the source). -/
def is_rar_media_file (infolist : List (List Char)) : Bool :=
  infolist.foldl (fun h f => h || mediaExts.contains (splitextL f).2) false

/-- `is_media_rar`: first volume and containing media. -/
def is_media_rar (listing : List (List Char)) (infolist : List (List Char))
    (item : List Char) : Except PyErr Bool :=
  match is_rar_first_volume listing item with
  | .error e => .error e
  | .ok false => .ok false
  | .ok true => .ok (is_rar_media_file infolist)

/-! ## Media discovery

The filesystem is a finite tree.  A file node carries the table of
contents its path would expose when opened as an archive (ignored for
ordinary files). -/

/-- A directory entry: a file (with archive table of contents) or a
subdirectory. -/
inductive Entry where
  | file : (nm : List Char) → (infolist : List (List Char)) → Entry
  | dir : (nm : List Char) → (children : List Entry) → Entry

/-- Name of an entry, as `os.listdir` reports it. -/
def Entry.name : Entry → List Char
  | .file n _ => n
  | .dir n _ => n

/-- `os.listdir` of a directory's children. -/
def namesOf (es : List Entry) : List (List Char) :=
  es.map Entry.name

mutual

/-- Contribution of one `os.listdir` entry to `get_media`'s accumulator:
season-like directories are recursed into, files are kept when their
extension is a media extension or when they are qualifying archives,
everything else is skipped.  Exceptions from the archive inspector
propagate and abort the scan. -/
def collectEntry (p : List Char) (listing : List (List Char)) :
    Entry → Except PyErr (List (List Char))
  | .dir n children =>
    let item := pjoin p n
    if (searchSeason (basenameL item)).isSome then
      collectList item (namesOf children) children
    else .ok []
  | .file n infolist =>
    let item := pjoin p n
    let ext := (splitextL item).2
    if ext == rarExt then
      match is_media_rar listing infolist item with
      | .error e => .error e
      | .ok true => .ok [item]
      | .ok false => .ok []
    else if mediaExts.contains ext then .ok [item]
    else .ok []

/-- The `for i in os.listdir(p)` loop of `get_media`, appending in listing
order. -/
def collectList (p : List Char) (listing : List (List Char)) :
    List Entry → Except PyErr (List (List Char))
  | [] => .ok []
  | e :: rest =>
    match collectEntry p listing e with
    | .error err => .error err
    | .ok l1 =>
      match collectList p listing rest with
      | .error err => .error err
      | .ok l2 => .ok (l1 ++ l2)

end

/-- `get_media p`: `root` is what the filesystem holds at path `p`
(`none` when the path does not exist).  Non-directories yield `[]`. -/
def get_media (root : Option Entry) (p : List Char) : Except PyErr (List (List Char)) :=
  match root with
  | some (.dir _ children) => collectList p (namesOf children) children
  | _ => .ok []

/-! ## Jobs and execution -/

/-- The `--mode` choices. -/
inductive Mode where
  | copy : Mode
  | link : Mode
  | move : Mode
deriving DecidableEq

/-- An organization job: `{'a': mode, 's': source, 't': target}`. -/
structure Job where
  a : Mode
  s : List Char
  t : List Char
deriving DecidableEq

/-- The single extraction side effect of `extract_rar`:
`rf.extract(member, path=pathArg)`. -/
structure ExtractEffect where
  member : List Char
  pathArg : List Char
deriving DecidableEq

/-- The first archive entry with a media extension, as the scan loop of
`extract_rar` finds it. -/
def findMedia (infolist : List (List Char)) : Option (List Char) :=
  infolist.find? (fun f => mediaExts.contains (splitextL f).2)

/-- `extract_rar`: `infolist` maps an archive path to its table of
contents.  Returns the success flag, the (possibly rewritten) job, and the
recorded extraction effect.  Note the source extracts `rf.infolist()[0]`,
not the found media entry. -/
def extract_rar (infolist : List Char → List (List Char)) (j : Job) :
    Except PyErr (Bool × Job × Option ExtractEffect) :=
  let lst := infolist j.s
  match findMedia lst with
  | none => .ok (false, j, none)
  | some m =>
    match lst with
    | [] => .ok (false, j, none)
    | f0 :: _ =>
      let d := (psplit j.s).1
      let extract_path := pjoin d m
      match get_target_path extract_path (psplit j.t).1 with
      | .error e => .error e
      | .ok t2 => .ok (true, { j with s := extract_path, t := t2 }, some ⟨f0, extract_path⟩)

/-- Environment for `organize`: archive tables of contents and the
outcomes of the filesystem mutations (`makedirs` after its `EEXIST`
swallowing, and the `copy`/`link`/`move` call). -/
structure OrgEnv where
  infolist : List Char → List (List Char)
  mkdirErr : List Char → Option PyErr
  actErr : Mode → List Char → List Char → Option PyErr

/-- The directory-creation and action part of `organize` (everything after
the archive check). -/
def organize_place (env : OrgEnv) (j : Job) : Except PyErr (Option Bool × Job) :=
  match env.mkdirErr (psplit j.t).1 with
  | some e => .error e
  | none =>
    match env.actErr j.a j.s j.t with
    | some e => .error e
    | none => .ok (some true, j)

/-- `organize`: materializes archives on demand, then creates the target
directory and performs the action.  Returns `none` (Python `None`, a bare
`return`) when an archive holds no media entry, `some true` on success. -/
def organize (env : OrgEnv) (j : Job) : Except PyErr (Option Bool × Job) :=
  if (splitextL j.t).2 == rarExt then
    match extract_rar env.infolist j with
    | .error e => .error e
    | .ok (false, j1, _) => .ok (none, j1)
    | .ok (true, j1, _) => organize_place env j1
  else organize_place env j

/-- A drained result: the Python value put on the `finished` queue is
either `organize`'s return value or the caught exception. -/
inductive Res where
  | val : Option Bool → Res
  | exn : PyErr → Res
deriving DecidableEq

/-- One loop iteration of `organize_worker`: run the job, catching any
exception as a per-job result. -/
def organize_worker_one (env : OrgEnv) (j : Job) : Job × Res :=
  match organize env j with
  | .error e => (j, .exn e)
  | .ok (r, j2) => (j2, .val r)

/-- All outcomes a worker pushes for the jobs it drains, in order. -/
def run_worker (env : OrgEnv) (js : List Job) : List (Job × Res) :=
  js.map (organize_worker_one env)

/-- The serial branch of `main`: `for j in jobs: organize(j)` with no
exception handling.  Returns the jobs on which `organize` was invoked and
the exception that escaped, if any. -/
def run_serial (env : OrgEnv) : List Job → List Job × Option PyErr
  | [] => ([], none)
  | j :: rest =>
    match organize env j with
    | .error e => ([j], some e)
    | .ok _ =>
      match run_serial env rest with
      | (l, e) => (j :: l, e)

/-- The job-building loop of `main`: `get_target_path` per discovered
item; `ValueError` skips the item and surfaces its message; any other
exception (the season-mismatch `AssertionError`) propagates. -/
def build_jobs (mode : Mode) (target : List Char) :
    List (List Char) → Except PyErr (List Job × List (List Char))
  | [] => .ok ([], [])
  | i :: rest =>
    match get_target_path i target with
    | .ok t =>
      match build_jobs mode target rest with
      | .error e => .error e
      | .ok (js, ms) => .ok (⟨mode, i, t⟩ :: js, ms)
    | .error (.valueError m) =>
      match build_jobs mode target rest with
      | .error e => .error e
      | .ok (js, ms) => .ok (js, m :: ms)
    | .error e => .error e

/-! ## Result aggregation -/

/-- `dir_counts[d] += 1` on a `defaultdict(int)` kept as an association
list. -/
def bump : List (List Char × Nat) → List Char → List (List Char × Nat)
  | [], d => [(d, 1)]
  | (k, v) :: rest, d =>
    if k = d then (k, v + 1) :: rest else (k, v) :: bump rest d

/-- Aggregator state: `dir_counts`, `failed`, `done`. -/
def AggSt : Type := List (List Char × Nat) × List (Job × PyErr) × Nat

/-- One iteration of the drain loop of `main`: `result is True` bumps the
target directory's count, exceptions are recorded, anything else (the
`None` of a dropped archive job) only advances `done`. -/
def aggregateStep (st : AggSt) (o : Job × Res) : AggSt :=
  match o.2 with
  | .val (some true) => (bump st.1 (psplit o.1.t).1, st.2.1, st.2.2 + 1)
  | .exn e => (st.1, st.2.1 ++ [(o.1, e)], st.2.2 + 1)
  | .val _ => (st.1, st.2.1, st.2.2 + 1)

/-- Drain a full outcome list. -/
def aggregateAll (outs : List (Job × Res)) : AggSt :=
  outs.foldl aggregateStep ([], [], 0)

/-- Total of `dir_counts.values()`. -/
def countsSum : List (List Char × Nat) → Nat
  | [] => 0
  | x :: rest => x.2 + countsSum rest

/-- Number of outcomes whose result is Python `True`. -/
def countTrue : List (Job × Res) → Nat
  | [] => 0
  | (_, .val (some true)) :: rest => countTrue rest + 1
  | _ :: rest => countTrue rest

/-! ## The parallel pool, as a small-step system

`queue.Queue` hands each item to exactly one caller of `get_nowait`; a
step either atomically takes the head job from the shared queue into some
worker, or finishes an in-flight job by pushing its single outcome. -/

/-- `worker_count = min(64, len(jobs))`. -/
def worker_count (jobs : List Job) : Nat :=
  min 64 jobs.length

/-- State of the parallel run: the shared job queue, jobs taken but not
yet finished, and the `finished` queue (most recent first).  An outcome
keeps the identity of the queue item (the Python dict object, i.e. the
job as submitted) alongside the `(job, result)` pair the worker pushes —
the job in that pair being the dict's possibly rewritten content. -/
structure PoolState where
  pending : List Job
  inflight : List Job
  outcomes : List (Job × Job × Res)

/-- One atomic step of the pool. -/
inductive PoolStep (env : OrgEnv) : PoolState → PoolState → Prop
  | take (j : Job) (rest inflight : List Job) (outs : List (Job × Job × Res)) :
      PoolStep env ⟨j :: rest, inflight, outs⟩ ⟨rest, j :: inflight, outs⟩
  | finish (j : Job) (pending inflight : List Job) (outs : List (Job × Job × Res))
      (h : j ∈ inflight) :
      PoolStep env ⟨pending, inflight, outs⟩
        ⟨pending, inflight.erase j, (j, organize_worker_one env j) :: outs⟩

/-- Any interleaving of pool steps. -/
def PoolTrace (env : OrgEnv) : PoolState → PoolState → Prop :=
  Relation.ReflTransGen (PoolStep env)

/-! ## Supporting lemmas: decimal rendering -/

deriving instance DecidableEq for Except

theorem digitChar_toNat {m : Nat} (h : m < 10) : (digitChar m).toNat = 48 + m := by
  interval_cases m <;> rfl

theorem digitsToNat_append_digit (l : List Char) (c : Char) :
    digitsToNat (l ++ [c]) = digitsToNat l * 10 + (c.toNat - 48) := by
  unfold digitsToNat
  rw [List.foldl_append]
  rfl

theorem natDigitsAux_correct : ∀ fuel n, n < fuel → digitsToNat (natDigitsAux fuel n) = n := by
  intro fuel
  induction fuel with
  | zero => intro n h; omega
  | succ f ih =>
    intro n h
    unfold natDigitsAux
    by_cases h10 : n < 10
    · simp only [if_pos h10]
      unfold digitsToNat
      simp [List.foldl, digitChar_toNat h10]
    · simp only [if_neg h10]
      rw [digitsToNat_append_digit, ih (n / 10) (by omega), digitChar_toNat (Nat.mod_lt n (by omega))]
      omega

theorem digitsToNat_natDigits (n : Nat) : digitsToNat (natDigits n) = n :=
  natDigitsAux_correct (n + 1) n (Nat.lt_succ_self n)

theorem digitsToNat_pad2 (n : Nat) : digitsToNat (pad2 n) = n := by
  unfold pad2
  by_cases h : n < 10
  · simp only [if_pos h]
    have : digitsToNat ('0' :: natDigits n) = digitsToNat (natDigits n) := by
      unfold digitsToNat
      rfl
    rw [this, digitsToNat_natDigits]
  · simp only [if_neg h, digitsToNat_natDigits]

theorem natDigitsAux_single {fuel m : Nat} (hf : 0 < fuel) (h : m < 10) :
    natDigitsAux fuel m = [digitChar m] := by
  cases fuel with
  | zero => omega
  | succ f => unfold natDigitsAux; simp [h]

theorem pad2_length {n : Nat} (h : n < 100) : (pad2 n).length = 2 := by
  unfold pad2
  by_cases h10 : n < 10
  · rw [if_pos h10]
    unfold natDigits
    rw [natDigitsAux_single (by omega) h10]
    rfl
  · rw [if_neg h10]
    unfold natDigits natDigitsAux
    rw [if_neg h10, natDigitsAux_single (by omega) (by omega)]
    rfl

theorem pad2_wide {n : Nat} (h : 100 ≤ n) : pad2 n = natDigits n := by
  unfold pad2
  rw [if_neg (by omega)]

/-! ## C1: target-path derivation -/

theorem get_target_path_eq (source target : List Char) (s e : Nat)
    (hp : get_episode_info source = .ok (s, e)) :
    get_target_path source target =
      match target_dir_for target s with
      | .error er => .error er
      | .ok t1 => .ok (pjoin t1 (epFname s e (splitextL source).2)) := by
  unfold get_target_path
  rw [hp]

/-- C1: for a source whose filename parses to `(season, episode)`: a
season-like target root must carry the same season number (a mismatch is a
fatal `AssertionError`) and is used as the directory unchanged; a
non-season-like target root gets a zero-padded `season NN` segment
appended.  In both cases the file part is
`s<season:02>e<episode:02><original extension>`, with genuinely 2-digit
zero-padded fields below 100 that widen naturally above. -/
theorem claim1_target_path (source target : List Char) (season episode : Nat)
    (hp : get_episode_info source = .ok (season, episode)) :
    (∀ ts, get_season_number target = .ok ts → ts ≠ season →
        get_target_path source target = .error .assertionError)
    ∧ (∀ ts, get_season_number target = .ok ts → ts = season →
        get_target_path source target =
          .ok (pjoin target
            ('s' :: pad2 season ++ 'e' :: pad2 episode ++ (splitextL source).2)))
    ∧ ((∃ m, get_season_number target = .error m) →
        get_target_path source target =
          .ok (pjoin (pjoin target ("season ".data ++ pad2 season))
            ('s' :: pad2 season ++ 'e' :: pad2 episode ++ (splitextL source).2)))
    ∧ digitsToNat (pad2 season) = season
    ∧ digitsToNat (pad2 episode) = episode
    ∧ (season < 100 → (pad2 season).length = 2)
    ∧ (episode < 100 → (pad2 episode).length = 2)
    ∧ (100 ≤ season → pad2 season = natDigits season) := by
  refine ⟨?_, ?_, ?_, digitsToNat_pad2 season, digitsToNat_pad2 episode,
    fun h => pad2_length h, fun h => pad2_length h, fun h => pad2_wide h⟩
  · intro ts hts hne
    rw [get_target_path_eq source target season episode hp]
    unfold target_dir_for
    rw [hts]
    simp [hne]
  · intro ts hts heq
    rw [get_target_path_eq source target season episode hp]
    unfold target_dir_for
    rw [hts]
    subst heq
    simp [epFname]
  · rintro ⟨m, hm⟩
    rw [get_target_path_eq source target season episode hp]
    unfold target_dir_for
    rw [hm]
    simp [epFname, get_season_target]

/-- C1 witness: `Show.S01E02.mkv` placed under the non-season-like root
`/media/show`. -/
theorem claim1_target_path_witness :
    get_target_path "/media/src/Show.S01E02.mkv".data "/media/show".data =
      .ok "/media/show/season 01/s01e02.mkv".data := by
  have h := claim1_target_path "/media/src/Show.S01E02.mkv".data "/media/show".data 1 2 (by decide)
  have h3 := h.2.2.1 ⟨.valueError seasonMsg, by decide⟩
  rw [h3]
  decide

/-! ## C2: episode parsing -/

/-- C2 counterexample: the base name of `/a/s01e00.mkv` matches the
`S<d>E<d>` pattern with captures `(1, 0)`, yet `get_episode_info` raises
`ValueError` instead of returning the captured integers. -/
theorem claim2_cex :
    searchSE (psplit "/a/s01e00.mkv".data).2 = some (1, 0)
    ∧ get_episode_info "/a/s01e00.mkv".data =
        .error (.valueError (epMsg "/a/s01e00.mkv".data)) := by
  constructor
  · decide
  · decide

/-- C2 (amended): the `S..E..` pattern is tried first; `get_episode_info`
returns the first match's captured integers when the captured episode is
nonzero, and raises `ValueError` when no pattern matches the base name or
the first match's episode is zero. -/
theorem claim2_episode (p : List Char) :
    (∀ r, searchSE (psplit p).2 = some r → searchEpisode (psplit p).2 = some r)
    ∧ (searchSE (psplit p).2 = none → searchEpisode (psplit p).2 = searchX (psplit p).2)
    ∧ (∀ s e, searchEpisode (psplit p).2 = some (s, e) → e ≠ 0 →
        get_episode_info p = .ok (s, e))
    ∧ (∀ s, searchEpisode (psplit p).2 = some (s, 0) →
        get_episode_info p = .error (.valueError (epMsg p)))
    ∧ (searchEpisode (psplit p).2 = none →
        get_episode_info p = .error (.valueError (epMsg p))) := by
  refine ⟨?_, ?_, ?_, ?_, ?_⟩
  · intro r h
    unfold searchEpisode
    rw [h]
  · intro h
    unfold searchEpisode
    rw [h]
  · intro s e h he
    unfold get_episode_info
    rw [h]
    simp [he]
  · intro s h
    unfold get_episode_info
    rw [h]
    simp
  · intro h
    unfold get_episode_info
    rw [h]

/-- C2 witness: `foo.2x07.mkv` parses to `(2, 7)` through the `<d>x<d>`
pattern. -/
theorem claim2_witness : get_episode_info "/a/foo.2x07.mkv".data = .ok (2, 7) :=
  (claim2_episode "/a/foo.2x07.mkv".data).2.2.1 2 7 (by decide) (by decide)

/-! ## C7: parse-failure condition and skip-and-continue job building -/

/-- C7: `get_episode_info` raises exactly when no episode pattern matches
the base name or the first match's episode number is zero; during job
building a `ValueError` skips the offending item, records its message and
continues, and a build over items that only ever raise `ValueError`
always completes. -/
theorem claim7_parse_skip (p target item : List Char) (mode : Mode)
    (rest : List (List Char)) (m : List Char) (items : List (List Char)) :
    ((∃ er, get_episode_info p = .error er) ↔
      (searchEpisode (psplit p).2 = none
        ∨ ∃ s, searchEpisode (psplit p).2 = some (s, 0)))
    ∧ (get_target_path item target = .error (.valueError m) →
        build_jobs mode target (item :: rest) =
          match build_jobs mode target rest with
          | .error e => .error e
          | .ok (js, ms) => .ok (js, m :: ms))
    ∧ ((∀ i ∈ items, ∀ er, get_target_path i target = .error er →
          ∃ mm, er = .valueError mm) →
        ∃ js ms, build_jobs mode target items = .ok (js, ms)) := by
  refine ⟨?_, ?_, ?_⟩
  · constructor
    · rintro ⟨er, her⟩
      unfold get_episode_info at her
      rcases h : searchEpisode (psplit p).2 with _ | ⟨s, e⟩
      · exact Or.inl rfl
      · rw [h] at her
        by_cases he : e = 0
        · subst he
          exact Or.inr ⟨s, rfl⟩
        · simp [he] at her
    · intro h
      rcases h with h | ⟨s, h⟩
      · exact ⟨.valueError (epMsg p), by unfold get_episode_info; rw [h]⟩
      · exact ⟨.valueError (epMsg p), by unfold get_episode_info; rw [h]; simp⟩
  · intro h
    simp only [build_jobs, h]
  · intro h
    induction items with
    | nil => exact ⟨[], [], rfl⟩
    | cons i is ih =>
      obtain ⟨js, ms, hjs⟩ := ih (fun x hx => h x (List.mem_cons_of_mem i hx))
      rcases hi : get_target_path i target with er | t
      · obtain ⟨mm, hmm⟩ := h i (List.mem_cons_self i is) er hi
        subst hmm
        refine ⟨js, mm :: ms, ?_⟩
        simp only [build_jobs, hi, hjs]
      · refine ⟨⟨mode, i, t⟩ :: js, ms, ?_⟩
        simp only [build_jobs, hi, hjs]

/-- C7 witness: an unparsable discovered item is skipped with its message
surfaced while the build completes. -/
theorem claim7_witness :
    build_jobs .move "/t".data ["/a/noep.mkv".data] =
      .ok ([], [epMsg "/a/noep.mkv".data]) := by
  have h := (claim7_parse_skip "/a/noep.mkv".data "/t".data "/a/noep.mkv".data .move
    [] (epMsg "/a/noep.mkv".data) []).2.1 (by decide)
  rw [h]
  decide

/-! ## C4: archive first-volume check -/

theorem mem_insertPart {x q : Nat × List Char} :
    ∀ {l}, q ∈ insertPart x l ↔ q = x ∨ q ∈ l := by
  intro l
  induction l with
  | nil => simp [insertPart]
  | cons y ys ih =>
    unfold insertPart
    by_cases h : y.1 ≤ x.1
    · rw [if_pos h]
      simp only [List.mem_cons, ih]
      tauto
    · rw [if_neg h]
      simp only [List.mem_cons]


theorem insertPart_pairwise {x : Nat × List Char} :
    ∀ {l : List (Nat × List Char)}, l.Pairwise (fun a b => a.1 ≤ b.1) →
      (insertPart x l).Pairwise (fun a b => a.1 ≤ b.1) := by
  intro l
  induction l with
  | nil => intro _; simp [insertPart]
  | cons y ys ih =>
    intro hp
    rcases List.pairwise_cons.mp hp with ⟨hy, hys⟩
    unfold insertPart
    by_cases h : y.1 ≤ x.1
    · rw [if_pos h, List.pairwise_cons]
      refine ⟨?_, ih hys⟩
      intro b hb
      rcases mem_insertPart.mp hb with hbx | hby
      · rw [hbx]; exact h
      · exact hy b hby
    · rw [if_neg h, List.pairwise_cons]
      refine ⟨?_, hp⟩
      intro b hb
      rcases List.mem_cons.mp hb with hby | hbys
      · subst hby
        omega
      · have := hy b hbys
        omega

theorem sortParts_go_mem {q : Nat × List Char} :
    ∀ (l acc : List (Nat × List Char)),
      (q ∈ l.foldl (fun acc x => insertPart x acc) acc ↔ q ∈ acc ∨ q ∈ l) := by
  intro l
  induction l with
  | nil => intro acc; simp
  | cons x xs ih =>
    intro acc
    rw [List.foldl_cons, ih]
    rw [show (q ∈ insertPart x acc) = (q = x ∨ q ∈ acc) from propext mem_insertPart]
    simp only [List.mem_cons]
    tauto

theorem sortParts_go_pairwise :
    ∀ (l acc : List (Nat × List Char)), acc.Pairwise (fun a b => a.1 ≤ b.1) →
      (l.foldl (fun acc x => insertPart x acc) acc).Pairwise (fun a b => a.1 ≤ b.1) := by
  intro l
  induction l with
  | nil => intro acc h; simpa using h
  | cons x xs ih =>
    intro acc h
    rw [List.foldl_cons]
    exact ih _ (insertPart_pairwise h)

theorem sortParts_mem {q : Nat × List Char} {l : List (Nat × List Char)} :
    q ∈ sortParts l ↔ q ∈ l := by
  unfold sortParts
  rw [sortParts_go_mem]
  simp

theorem sortParts_pairwise (l : List (Nat × List Char)) :
    (sortParts l).Pairwise (fun a b => a.1 ≤ b.1) :=
  sortParts_go_pairwise l [] (by simp)

theorem sortParts_head_min {l : List (Nat × List Char)} {p0 : Nat × List Char}
    {ps : List (Nat × List Char)} (h : sortParts l = p0 :: ps) :
    ∀ q ∈ l, p0.1 ≤ q.1 := by
  intro q hq
  have hq' : q ∈ p0 :: ps := h ▸ sortParts_mem.mpr hq
  rcases List.mem_cons.mp hq' with h1 | h2
  · rw [h1]
  · have hp := sortParts_pairwise l
    rw [h, List.pairwise_cons] at hp
    exact hp.1 q h2

/-- C4 counterexample: with no sibling carrying the archive extension,
`ext_counts.get('.rar')` is `None` and the comparison `None > 1` raises
`TypeError`; the function does not return false. -/
theorem claim4_cex :
    is_rar_first_volume ["x.txt".data] "/d/foo.rar".data = .error .typeError
    ∧ is_rar_first_volume ["x.txt".data] "/d/foo.rar".data ≠ .ok false := by
  constructor
  · decide
  · decide

/-- C4 (amended): with more than one archive-extension sibling the archive
is deemed first iff it is the head of the stable sort of the
trailing-number siblings — i.e. an entry of minimal parseable trailing
suffix (siblings without a number are excluded; if none at all has one,
`parts[0]` raises `IndexError`); a sole archive-extension sibling is
trivially first; with none, `None > 1` raises `TypeError` instead of
returning false.  In particular `foo1.rar` alone among `foo1/foo2/foo3` is
first, and a single `foo.rar` with no numeric sibling is first. -/
theorem claim4_first_volume (listing : List (List Char)) (r : List Char) :
    (rarCountOf listing = 0 → is_rar_first_volume listing r = .error .typeError)
    ∧ (rarCountOf listing = 1 → is_rar_first_volume listing r = .ok true)
    ∧ (1 < rarCountOf listing →
        (partsOf listing (psplit r).1 = [] →
          is_rar_first_volume listing r = .error .indexError)
        ∧ (∀ p0 ps, sortParts (partsOf listing (psplit r).1) = p0 :: ps →
            is_rar_first_volume listing r = .ok (p0.2 == r)
            ∧ ∀ q ∈ partsOf listing (psplit r).1, p0.1 ≤ q.1))
    ∧ is_rar_first_volume ["foo1.rar".data, "foo2.rar".data, "foo3.rar".data]
        "/d/foo1.rar".data = .ok true
    ∧ is_rar_first_volume ["foo1.rar".data, "foo2.rar".data, "foo3.rar".data]
        "/d/foo2.rar".data = .ok false
    ∧ is_rar_first_volume ["foo1.rar".data, "foo2.rar".data, "foo3.rar".data]
        "/d/foo3.rar".data = .ok false
    ∧ is_rar_first_volume ["foo.rar".data] "/d/foo.rar".data = .ok true := by
  refine ⟨?_, ?_, ?_, by decide, by decide, by decide, by decide⟩
  · intro h
    unfold is_rar_first_volume
    simp [h]
  · intro h
    unfold is_rar_first_volume
    simp [h]
  · intro h
    have h0 : ¬ rarCountOf listing = 0 := by omega
    constructor
    · intro hp
      unfold is_rar_first_volume
      simp only [hp, if_neg h0, if_pos h]
      rfl
    · intro p0 ps hsort
      constructor
      · unfold is_rar_first_volume
        simp only [if_neg h0, if_pos h, hsort]
      · exact sortParts_head_min hsort

/-- C4 witness: the three-volume tie-break at `foo1.rar`. -/
theorem claim4_witness :
    is_rar_first_volume ["foo1.rar".data, "foo2.rar".data, "foo3.rar".data]
      "/d/foo1.rar".data = .ok true := by
  have h := (claim4_first_volume
    ["foo1.rar".data, "foo2.rar".data, "foo3.rar".data] "/d/foo1.rar".data).2.2.1
    (by decide)
  have h2 := (h.2 (1, "/d/foo1.rar".data)
    [(2, "/d/foo2.rar".data), (3, "/d/foo3.rar".data)] (by decide)).1
  rw [h2]
  decide

/-! ## C3: media discovery -/

/-- The spec's example tree: `root/extras/clip.mkv` and
`root/season 01/s01e01.mkv`. -/
def exampleTree : Entry :=
  .dir "root".data
    [ .dir "extras".data [ .file "clip.mkv".data [] ],
      .dir "season 01".data [ .file "s01e01.mkv".data [] ] ]

/-- A tree on which discovery crashes: two archive siblings, neither with
a trailing number in its stem. -/
def cexTree : Entry :=
  .dir "root".data [ .file "foo.rar".data [], .file "bar.rar".data [] ]

/-- C3 counterexample: on a directory holding `foo.rar` and `bar.rar`
(no trailing numbers), `get_media` does not return a sequence at all: the
first-volume check's `parts[0]` raises `IndexError` and aborts the scan. -/
theorem claim3_cex :
    get_media (some cexTree) "/r".data = .error .indexError := by
  decide

/-- C3 (amended): a missing or non-directory root yields `[]` (not an
error); only season-like subdirectories are recursed into; files are kept
exactly when their extension is a media extension or they are archives
that qualify (first volume and containing media) — except that the scan
aborts with an error when an archive's qualification check itself raises
(two or more `.rar` siblings, none with a parseable trailing number).  On
the spec's example tree only the season-01 item is produced. -/
theorem claim3_discovery :
    (∀ p, get_media none p = .ok [])
    ∧ (∀ p n il, get_media (some (.file n il)) p = .ok [])
    ∧ (∀ p listing n children, searchSeason (basenameL (pjoin p n)) = none →
        collectEntry p listing (.dir n children) = .ok [])
    ∧ (∀ p listing n children k, searchSeason (basenameL (pjoin p n)) = some k →
        collectEntry p listing (.dir n children) =
          collectList (pjoin p n) (namesOf children) children)
    ∧ (∀ p listing n il, (splitextL (pjoin p n)).2 ≠ rarExt →
        collectEntry p listing (.file n il) =
          (if mediaExts.contains (splitextL (pjoin p n)).2
            then .ok [pjoin p n] else .ok []))
    ∧ (∀ p listing n il b, (splitextL (pjoin p n)).2 = rarExt →
        is_media_rar listing il (pjoin p n) = .ok b →
        collectEntry p listing (.file n il) =
          .ok (if b then [pjoin p n] else []))
    ∧ (∀ p listing n il e, (splitextL (pjoin p n)).2 = rarExt →
        is_media_rar listing il (pjoin p n) = .error e →
        collectEntry p listing (.file n il) = .error e)
    ∧ get_media (some exampleTree) "/r".data = .ok ["/r/season 01/s01e01.mkv".data] := by
  refine ⟨fun p => rfl, fun p n il => rfl, ?_, ?_, ?_, ?_, ?_, by decide⟩
  · intro p listing n children h
    simp only [collectEntry, h]
    rfl
  · intro p listing n children k h
    simp only [collectEntry, h]
    rfl
  · intro p listing n il h
    have hb : ((splitextL (pjoin p n)).2 == rarExt) = false := by
      exact beq_eq_false_iff_ne.mpr h
    simp only [collectEntry, hb]
    rfl
  · intro p listing n il b h hm
    have hb : ((splitextL (pjoin p n)).2 == rarExt) = true := by
      rw [h]
      decide
    simp only [collectEntry, hb, if_true, hm]
    cases b <;> rfl
  · intro p listing n il e h hm
    have hb : ((splitextL (pjoin p n)).2 == rarExt) = true := by
      rw [h]
      decide
    simp only [collectEntry, hb, if_true, hm]

/-- C3 witness: a media file directly inside a scanned directory is
included. -/
theorem claim3_witness :
    collectEntry "/r".data ["clip.mkv".data] (.file "clip.mkv".data []) =
      .ok ["/r/clip.mkv".data] := by
  have h := claim3_discovery.2.2.2.2.1 "/r".data ["clip.mkv".data] "clip.mkv".data []
    (by decide)
  rw [h]
  decide

/-! ## C5: archive materialization -/

/-- Table of contents of the C5 archive: a non-media entry first, then the
media entry. -/
def c5infolist : List Char → List (List Char) :=
  fun _ => ["notes.nfo".data, "Show.S01E02.mkv".data]

/-- The C5 job, its target still carrying the archive extension. -/
def c5job : Job :=
  ⟨.move, "/d/Show.S01E02.rar".data, "/t/season 01/s01e02.rar".data⟩

/-- C5: the scan finds the media entry `Show.S01E02.mkv` and the job is
rewritten to it (source beside the archive, target recomputed) with
success `true`, but the extraction call passes `rf.infolist()[0]` — the
non-media first entry `notes.nfo` — as the member to extract, not the
found media entry. -/
theorem claim5_extract_mismatch :
    findMedia (c5infolist c5job.s) = some "Show.S01E02.mkv".data
    ∧ extract_rar c5infolist c5job =
        .ok (true,
          ⟨.move, "/d/Show.S01E02.mkv".data, "/t/season 01/s01e02.mkv".data⟩,
          some ⟨"notes.nfo".data, "/d/Show.S01E02.mkv".data⟩)
    ∧ "notes.nfo".data ≠ "Show.S01E02.mkv".data := by
  refine ⟨by decide, by decide, by decide⟩

/-! ## C6: failure isolation per execution mode -/

/-- Environment for the C6 scenario: creating `/bad` fails with
`OSError(13)` (permission denied), everything else succeeds. -/
def c6env : OrgEnv :=
  ⟨fun _ => [], fun d => if d = "/bad".data then some (.osError 13) else none,
    fun _ _ _ => none⟩

/-- First C6 job (succeeds). -/
def c6job1 : Job := ⟨.copy, "/s/a1.mkv".data, "/ok/a1.mkv".data⟩

/-- Second C6 job (its target directory is unwritable). -/
def c6job2 : Job := ⟨.copy, "/s/a2.mkv".data, "/bad/a2.mkv".data⟩

/-- Third C6 job (would succeed, but the serial loop never reaches it). -/
def c6job3 : Job := ⟨.copy, "/s/a3.mkv".data, "/ok/a3.mkv".data⟩

/-- C6 counterexample: in serial mode (`for j in jobs: organize(j)` with
no exception handling) the second job's failure propagates and the third
job is never executed, contradicting failure isolation in both modes. -/
theorem claim6_cex :
    run_serial c6env [c6job1, c6job2, c6job3] = ([c6job1, c6job2], some (.osError 13))
    ∧ c6job3 ∉ (run_serial c6env [c6job1, c6job2, c6job3]).1 := by
  refine ⟨by decide, by decide⟩

/-- C6 (amended): in parallel mode a failing job is captured as a per-job
`(job, exception)` outcome, every job still receives exactly one outcome
and the others are unaffected; in serial mode the first failure escapes
and aborts the remaining jobs. -/
theorem claim6_isolation (env : OrgEnv) (jobs1 jobs2 : List Job) (j : Job) (e : PyErr)
    (hok : ∀ x ∈ jobs1, ∃ r x2, organize env x = .ok (r, x2))
    (hj : organize env j = .error e) :
    run_serial env (jobs1 ++ j :: jobs2) = (jobs1 ++ [j], some e)
    ∧ run_worker env (jobs1 ++ j :: jobs2)
        = run_worker env jobs1 ++ (j, .exn e) :: run_worker env jobs2
    ∧ (run_worker env (jobs1 ++ j :: jobs2)).length
        = jobs1.length + 1 + jobs2.length := by
  refine ⟨?_, ?_, ?_⟩
  · induction jobs1 with
    | nil =>
      simp only [List.nil_append, run_serial, hj]
    | cons x xs ih =>
      obtain ⟨r, x2, hx⟩ := hok x (List.mem_cons_self x xs)
      have ih' := ih (fun y hy => hok y (List.mem_cons_of_mem x hy))
      simp only [List.cons_append, run_serial, hx, List.append_eq, ih']
  · unfold run_worker
    rw [List.map_append, List.map_cons]
    have hw : organize_worker_one env j = (j, .exn e) := by
      unfold organize_worker_one
      rw [hj]
    rw [hw]
  · simp only [run_worker, List.length_map, List.length_append, List.length_cons]
    omega

/-- C6 witness: serial execution stops right after the failing second
job. -/
theorem claim6_witness :
    run_serial c6env [c6job1, c6job2, c6job3] =
      ([c6job1, c6job2], some (.osError 13)) := by
  have h := (claim6_isolation c6env [c6job1] [c6job3] c6job2 (.osError 13)
    (by
      intro x hx
      rw [List.mem_singleton] at hx
      subst hx
      exact ⟨some true, c6job1, by decide⟩)
    (by decide)).1
  simpa using h

/-! ## C8: archives without media are silently dropped -/

/-- C8: when a job's target still has the archive extension and the
archive's table of contents holds no media entry, `organize` returns
Python `None` with the job untouched; the worker records `(job, None)` as
the single drained outcome, and the drain loop neither bumps a directory
count nor appends a failure record — it only advances `done`. -/
theorem claim8_archive_skip (env : OrgEnv) (j : Job) (c : List (List Char × Nat))
    (f : List (Job × PyErr)) (d : Nat)
    (hext : (splitextL j.t).2 = rarExt)
    (hnm : findMedia (env.infolist j.s) = none) :
    organize env j = .ok (none, j)
    ∧ organize_worker_one env j = (j, .val none)
    ∧ aggregateStep (c, f, d) (j, .val none) = (c, f, d + 1) := by
  have h1 : extract_rar env.infolist j = .ok (false, j, none) := by
    simp only [extract_rar, hnm]
  have hb : ((splitextL j.t).2 == rarExt) = true := by
    rw [hext]
    decide
  have h2 : organize env j = .ok (none, j) := by
    simp only [organize, hb, if_true, h1]
  refine ⟨h2, ?_, rfl⟩
  unfold organize_worker_one
  rw [h2]

/-- Environment for the C8 witness: the archive holds only a text file. -/
def c8env : OrgEnv :=
  ⟨fun _ => ["readme.txt".data], fun _ => none, fun _ _ _ => none⟩

/-- The C8 witness job. -/
def c8job : Job := ⟨.move, "/d/x.rar".data, "/t/season 01/s01e02.rar".data⟩

/-- C8 witness: the no-media archive job yields `None`, one drained
outcome, and untouched aggregates. -/
theorem claim8_witness :
    organize c8env c8job = .ok (none, c8job)
    ∧ aggregateStep ([], [], 0) (c8job, .val none) = ([], [], 1) := by
  have h := claim8_archive_skip c8env c8job [] [] 0 (by decide) (by decide)
  exact ⟨h.1, h.2.2⟩

/-! ## C9: the parallel pool -/

/-- Pool invariant: the queue, the in-flight jobs and the outcome
identities form a permutation of the submitted jobs, and every outcome is
the worker result of its queue item. -/
def PoolInv (env : OrgEnv) (jobs : List Job) (st : PoolState) : Prop :=
  (st.pending ++ st.inflight ++ st.outcomes.map Prod.fst).Perm jobs
  ∧ ∀ o ∈ st.outcomes, o.2 = organize_worker_one env o.1

theorem poolStep_inv {env : OrgEnv} {jobs : List Job} {st st' : PoolState}
    (hs : PoolStep env st st') (hi : PoolInv env jobs st) : PoolInv env jobs st' := by
  rcases hs with ⟨j, rest, inflight, outs⟩ | ⟨j, pending, inflight, outs, hj⟩
  · refine ⟨?_, hi.2⟩
    refine List.Perm.trans ?_ hi.1
    simp only [List.cons_append, List.append_assoc]
    exact List.perm_middle
  · constructor
    · refine List.Perm.trans ?_ hi.1
      have hperm : inflight.Perm (j :: inflight.erase j) := List.perm_cons_erase hj
      simp only [List.map_cons, List.append_assoc]
      refine List.Perm.append_left pending ?_
      have h1 : (inflight.erase j ++ j :: outs.map Prod.fst).Perm
          (j :: (inflight.erase j ++ outs.map Prod.fst)) := List.perm_middle
      have h3 : ((j :: inflight.erase j) ++ outs.map Prod.fst).Perm
          (inflight ++ outs.map Prod.fst) :=
        List.Perm.append_right _ hperm.symm
      exact h1.trans h3
    · intro o ho
      rcases List.mem_cons.mp ho with h1 | h1
      · rw [h1]
      · exact hi.2 o h1

theorem poolTrace_inv {env : OrgEnv} {jobs : List Job} {st st' : PoolState}
    (ht : PoolTrace env st st') (hi : PoolInv env jobs st) : PoolInv env jobs st' := by
  induction ht with
  | refl => exact hi
  | tail _ hstep ih => exact poolStep_inv hstep ih

theorem countsSum_bump (c : List (List Char × Nat)) (d : List Char) :
    countsSum (bump c d) = countsSum c + 1 := by
  induction c with
  | nil => rfl
  | cons x rest ih =>
    obtain ⟨k, v⟩ := x
    simp only [bump]
    by_cases h : k = d
    · simp only [if_pos h, countsSum]
      omega
    · simp only [if_neg h, countsSum, ih]
      omega

theorem aggregate_go_sum (outs : List (Job × Res)) :
    ∀ st : AggSt, countsSum (outs.foldl aggregateStep st).1 = countsSum st.1 + countTrue outs := by
  induction outs with
  | nil => intro st; simp [countTrue]
  | cons o rest ih =>
    intro st
    rw [List.foldl_cons, ih]
    obtain ⟨j, r⟩ := o
    rcases r with ob | e
    · rcases ob with _ | b
      · simp [aggregateStep, countTrue]
      · cases b
        · simp [aggregateStep, countTrue]
        · simp only [aggregateStep, countTrue, countsSum_bump]
          omega
    · simp [aggregateStep, countTrue]

theorem countTrue_all_true (outs : List (Job × Res))
    (h : ∀ o ∈ outs, o.2 = Res.val (some true)) : countTrue outs = outs.length := by
  induction outs with
  | nil => rfl
  | cons o rest ih =>
    obtain ⟨j, r⟩ := o
    have h0 : r = Res.val (some true) := h (j, r) (List.mem_cons_self _ _)
    subst h0
    simp only [countTrue, List.length_cons]
    rw [ih (fun x hx => h x (List.mem_cons_of_mem _ hx))]

/-- C9: across any interleaving of the pool from the submitted job list to
a drained final state, each submitted job is taken exactly once and yields
exactly one outcome (its worker result), so the outcome identities are a
permutation of the jobs — no job runs twice; when every job succeeds (as
with disjoint non-archive targets), the directory counts sum to the job
count; the worker pool size is `min(64, len(jobs))`. -/
theorem claim9_pool (env : OrgEnv) (jobs : List Job) (stF : PoolState)
    (htr : PoolTrace env ⟨jobs, [], []⟩ stF)
    (hpend : stF.pending = []) (hinf : stF.inflight = []) :
    (stF.outcomes.map Prod.fst).Perm jobs
    ∧ stF.outcomes.length = jobs.length
    ∧ (∀ j, (stF.outcomes.map Prod.fst).count j = jobs.count j)
    ∧ (∀ o ∈ stF.outcomes, o.2 = organize_worker_one env o.1)
    ∧ ((∀ j ∈ jobs, organize env j = .ok (some true, j)) →
        countsSum (aggregateAll (stF.outcomes.map Prod.snd)).1 = jobs.length)
    ∧ worker_count jobs = min 64 jobs.length := by
  have hinv : PoolInv env jobs stF := poolTrace_inv htr ⟨by simp, by simp⟩
  have hperm : (stF.outcomes.map Prod.fst).Perm jobs := by
    have h1 := hinv.1
    rw [hpend, hinf] at h1
    simpa using h1
  have hlen : stF.outcomes.length = jobs.length := by
    have := hperm.length_eq
    simpa using this
  refine ⟨hperm, hlen, fun j => hperm.count_eq j, hinv.2, ?_, rfl⟩
  intro hall
  have houts : ∀ x ∈ stF.outcomes.map Prod.snd, x.2 = Res.val (some true) := by
    intro x hx
    rw [List.mem_map] at hx
    obtain ⟨o, ho, hxo⟩ := hx
    have h1 : o.2 = organize_worker_one env o.1 := hinv.2 o ho
    have h2 : o.1 ∈ jobs := hperm.mem_iff.mp (List.mem_map_of_mem Prod.fst ho)
    have h4 : organize_worker_one env o.1 = (o.1, Res.val (some true)) := by
      unfold organize_worker_one
      rw [hall o.1 h2]
    rw [← hxo, h1, h4]
  have hct := countTrue_all_true _ houts
  have hsum := aggregate_go_sum (stF.outcomes.map Prod.snd) ([], [], 0)
  unfold aggregateAll
  rw [hsum, hct]
  simp [countsSum, hlen]

/-- Environment for the C9 witness: no archives, every mutation
succeeds. -/
def c9env : OrgEnv := ⟨fun _ => [], fun _ => none, fun _ _ _ => none⟩

/-- First C9 witness job. -/
def c9job1 : Job := ⟨.copy, "/s/b1.mkv".data, "/t1/b1.mkv".data⟩

/-- Second C9 witness job, with a disjoint target. -/
def c9job2 : Job := ⟨.copy, "/s/b2.mkv".data, "/t2/b2.mkv".data⟩

/-- Final state of the C9 witness schedule. -/
def c9final : PoolState :=
  ⟨[], [],
    [(c9job2, organize_worker_one c9env c9job2),
     (c9job1, organize_worker_one c9env c9job1)]⟩

/-- C9 witness: a concrete two-job schedule drains to one outcome per job
and directory counts summing to the job count. -/
theorem claim9_witness :
    (c9final.outcomes.map Prod.fst).Perm [c9job1, c9job2]
    ∧ countsSum (aggregateAll (c9final.outcomes.map Prod.snd)).1 = 2 := by
  have t1 : PoolStep c9env ⟨[c9job1, c9job2], [], []⟩ ⟨[c9job2], [c9job1], []⟩ :=
    PoolStep.take c9job1 [c9job2] [] []
  have t2 : PoolStep c9env ⟨[c9job2], [c9job1], []⟩
      ⟨[c9job2], [c9job1].erase c9job1,
        [(c9job1, organize_worker_one c9env c9job1)]⟩ :=
    PoolStep.finish c9job1 [c9job2] [c9job1] [] (List.mem_singleton.mpr rfl)
  have t3 : PoolStep c9env
      ⟨[c9job2], [c9job1].erase c9job1, [(c9job1, organize_worker_one c9env c9job1)]⟩
      ⟨[], c9job2 :: [c9job1].erase c9job1,
        [(c9job1, organize_worker_one c9env c9job1)]⟩ :=
    PoolStep.take c9job2 [] ([c9job1].erase c9job1)
      [(c9job1, organize_worker_one c9env c9job1)]
  have t4 : PoolStep c9env
      ⟨[], c9job2 :: [c9job1].erase c9job1,
        [(c9job1, organize_worker_one c9env c9job1)]⟩
      ⟨[], (c9job2 :: [c9job1].erase c9job1).erase c9job2,
        [(c9job2, organize_worker_one c9env c9job2),
         (c9job1, organize_worker_one c9env c9job1)]⟩ :=
    PoolStep.finish c9job2 [] (c9job2 :: [c9job1].erase c9job1)
      [(c9job1, organize_worker_one c9env c9job1)] (List.mem_cons_self _ _)
  have htr : PoolTrace c9env ⟨[c9job1, c9job2], [], []⟩ c9final :=
    Relation.ReflTransGen.tail
      (Relation.ReflTransGen.tail
        (Relation.ReflTransGen.tail
          (Relation.ReflTransGen.tail Relation.ReflTransGen.refl t1) t2) t3) t4
  have h := claim9_pool c9env [c9job1, c9job2] c9final htr rfl rfl
  refine ⟨h.1, ?_⟩
  refine Eq.trans (h.2.2.2.2.1 ?_) rfl
  intro j hj
  rcases List.mem_cons.mp hj with h1 | h1
  · subst h1
    decide
  · rw [List.mem_singleton] at h1
    subst h1
    decide

/-! ## C10: season classification is an unanchored substring search -/

theorem takeWhile_append_all {P : Char → Bool} :
    ∀ (l1 l2 : List Char), (∀ c ∈ l1, P c = true) →
      (l1 ++ l2).takeWhile P = l1 ++ l2.takeWhile P := by
  intro l1
  induction l1 with
  | nil => intro l2 _; simp
  | cons c cs ih =>
    intro l2 h
    have hc : P c = true := h c (List.mem_cons_self _ _)
    simp [List.takeWhile_cons, hc, ih l2 (fun x hx => h x (List.mem_cons_of_mem _ hx))]

theorem basenameL_append_slash (a n : List Char) (h : '/' ∉ n) :
    basenameL (a ++ '/' :: n) = n := by
  unfold basenameL
  have hall : ∀ c ∈ n.reverse, (decide (c ≠ '/')) = true := by
    intro c hc
    simp only [decide_eq_true_eq]
    intro heq
    rw [heq] at hc
    exact h (List.mem_reverse.mp hc)
  rw [List.reverse_append, List.reverse_cons, List.append_assoc,
    takeWhile_append_all n.reverse _ hall]
  simp

theorem basenameL_no_slash {n : List Char} (h : '/' ∉ n) : basenameL n = n := by
  unfold basenameL
  have hall : ∀ c ∈ n.reverse, (decide (c ≠ '/')) = true := by
    intro c hc
    simp only [decide_eq_true_eq]
    intro heq
    rw [heq] at hc
    exact h (List.mem_reverse.mp hc)
  have := takeWhile_append_all n.reverse [] hall
  simp only [List.append_nil] at this
  rw [this]
  simp

theorem basenameL_pjoin {a n : List Char} (hn : '/' ∉ n) (hne : n ≠ []) :
    basenameL (pjoin a n) = n := by
  obtain ⟨c, rest, rfl⟩ := List.exists_cons_of_ne_nil hne
  have hc : c ≠ '/' := fun h => hn (h ▸ List.mem_cons_self c rest)
  unfold pjoin
  split
  · rename_i heq
    rw [List.cons.injEq] at heq
    exact absurd heq.1 hc
  · split
    · exact basenameL_no_slash hn
    · rename_i tail heq
      have ha : a = tail.reverse ++ ['/'] := by
        have h2 := congrArg List.reverse heq
        simpa using h2
      rw [ha, List.append_assoc]
      exact basenameL_append_slash _ _ hn
    · exact basenameL_append_slash a _ hn

theorem matchSeasonAt_sdigit {c d : Char} (post : List Char)
    (hc : c = 's' ∨ c = 'S') (hd : d.isDigit = true) :
    ∃ k, matchSeasonAt (c :: d :: post) = some k := by
  have hde : d ≠ 'e' := by
    intro h
    rw [h] at hd
    exact absurd hd (by decide)
  obtain ⟨ds, r, hds⟩ : ∃ ds r, takeDigits (d :: post) = (d :: ds, r) := by
    unfold takeDigits
    rw [if_pos hd]
    exact ⟨(takeDigits post).1, (takeDigits post).2, rfl⟩
  refine ⟨digitsToNat (d :: ds), ?_⟩
  simp only [matchSeasonAt]
  rw [if_pos hc]
  simp only [stripPre, if_neg hde]
  unfold digitsAt
  rw [hds]

theorem searchSeason_append_isSome (pre l : List Char)
    (h : (searchSeason l).isSome = true) :
    (searchSeason (pre ++ l)).isSome = true := by
  induction pre with
  | nil => simpa
  | cons c cs ih =>
    rw [List.cons_append]
    cases hm : matchSeasonAt (c :: (cs ++ l)) with
    | some k => simp [searchSeason, hm]
    | none => simp [searchSeason, hm, ih]

theorem searchSeason_of_sdigit {pre : List Char} {c d : Char} {post : List Char}
    (hc : c = 's' ∨ c = 'S') (hd : d.isDigit = true) :
    (searchSeason (pre ++ c :: d :: post)).isSome = true := by
  apply searchSeason_append_isSome
  obtain ⟨k, hk⟩ := matchSeasonAt_sdigit post hc hd
  simp [searchSeason, hk]

/-- C10: season classification searches for `[sS]` followed by digits
anywhere in the base name — any name containing `s`/`S` immediately
followed by a digit (such as `dvds2` or `extras10`) is season-like, so
discovery descends into such directories, and `get_target_path` asserts
against the captured number when such a name is the target root. -/
theorem claim10_unanchored :
    (∀ p pre post (c d : Char), basenameL p = pre ++ c :: d :: post →
        (c = 's' ∨ c = 'S') → d.isDigit = true →
        ∃ k, get_season_number p = .ok k)
    ∧ get_season_number "dvds2".data = .ok 2
    ∧ get_season_number "extras10".data = .ok 10
    ∧ (∀ p listing children pre post (c d : Char), (c = 's' ∨ c = 'S') →
        d.isDigit = true → '/' ∉ (pre ++ c :: d :: post) →
        collectEntry p listing (.dir (pre ++ c :: d :: post) children) =
          collectList (pjoin p (pre ++ c :: d :: post)) (namesOf children) children)
    ∧ (∀ source target s e ts, get_episode_info source = .ok (s, e) →
        get_season_number target = .ok ts → ts ≠ s →
        get_target_path source target = .error .assertionError)
    ∧ get_target_path "/x/a.s03e01.mkv".data "/x/dvds2".data = .error .assertionError := by
  refine ⟨?_, by decide, by decide, ?_, ?_, by decide⟩
  · intro p pre post c d hb hc hd
    have hs : (searchSeason (basenameL p)).isSome = true := by
      rw [hb]
      exact searchSeason_of_sdigit hc hd
    obtain ⟨k, hk⟩ := Option.isSome_iff_exists.mp hs
    refine ⟨k, ?_⟩
    unfold get_season_number
    rw [hk]
  · intro p listing children pre post c d hc hd hslash
    have hne : pre ++ c :: d :: post ≠ [] := by
      intro h
      rcases List.append_eq_nil.mp h with ⟨_, h2⟩
      exact List.cons_ne_nil _ _ h2
    have hb : basenameL (pjoin p (pre ++ c :: d :: post)) = pre ++ c :: d :: post :=
      basenameL_pjoin hslash hne
    simp only [collectEntry, hb, searchSeason_of_sdigit hc hd, if_true]
  · intro source target s e ts hp hts hne
    rw [get_target_path_eq source target s e hp]
    unfold target_dir_for
    rw [hts]
    simp [hne]

/-- C10 witness: discovery descends into the season-like directory
`dvds2`. -/
theorem claim10_witness :
    collectEntry "/r".data ["dvds2".data] (.dir "dvds2".data [.file "clip.mkv".data []]) =
      collectList "/r/dvds2".data ["clip.mkv".data] [.file "clip.mkv".data []] := by
  have h := claim10_unanchored.2.2.2.1 "/r".data ["dvds2".data]
    [.file "clip.mkv".data []] "dvd".data [] 's' '2' (Or.inl rfl) (by decide) (by decide)
  exact h

end MediaOrganizer
